import Mathlib

/-!
Shallow embedding of the `usely` hook library cores, translated from the
repository sources:

* `useUndoRedoState` (linear undo/redo store) — `src/unnamed/part_003`
* `useDebounceCallback` / `useDebounceValue` (trailing debounce) —
  `src/src/hooks/useDebounceCallback.ts`, `src/src/hooks/useElementSize.ts`
* `useAsync` (async-operation core) — `src/src/hooks/useAsync.ts`

React state updates inside one hook instance are serialized by the host
scheduler, so each hook is embedded as a pure state-transition system:
a state record plus one transition function per operation, with operation
sequences folded over the state.
-/

namespace UndoRedo

/-- State of one `useUndoRedoState` instance:
`state` (current value), `history`, `future` (React `useState` cells) and
`initialRef.current` (the reset baseline). -/
structure UndoRedoState (T : Type) where
  current : T
  history : List T
  future : List T
  initial : T
deriving Repr, DecidableEq

/-- Hook construction `useUndoRedoState(initialValue)`:
`state = initialValue`, empty stacks, `initialRef.current = initialValue`. -/
def init {T : Type} (initialValue : T) : UndoRedoState T :=
  ⟨initialValue, [], [], initialValue⟩

/-- `set(value)` from the source: computes `newValue` (applying the updater
to the previous current when a function is passed), pushes the previous
current onto the end of `history` (`[...h, prev]`), clears `future`, and
installs `newValue` as current. -/
def set {T : Type} (s : UndoRedoState T) (value : T ⊕ (T → T)) : UndoRedoState T :=
  let newValue := match value with
    | Sum.inl v => v
    | Sum.inr f => f s.current
  { s with current := newValue, history := s.history ++ [s.current], future := [] }

/-- `undo()` from the source: no-op on empty history; otherwise pushes the
outgoing current onto the front of `future` (`[state, ...f]`), installs
`h[h.length - 1]` as current and drops it from history (`h.slice(0, -1)`). -/
def undo {T : Type} (s : UndoRedoState T) : UndoRedoState T :=
  match s.history.getLast? with
  | none => s
  | some prev =>
      { s with current := prev, history := s.history.dropLast,
               future := s.current :: s.future }

/-- `redo()` from the source: no-op on empty future; otherwise pushes the
outgoing current onto the end of `history` (`[...h, state]`), installs
`f[0]` as current and drops it from future (`f.slice(1)`). -/
def redo {T : Type} (s : UndoRedoState T) : UndoRedoState T :=
  match s.future with
  | [] => s
  | next :: rest =>
      { s with current := next, history := s.history ++ [s.current],
               future := rest }

/-- `reset(newInitialValue?)` from the source: `value` is the argument when
one is given (`newInitialValue !== undefined`), else the stored baseline;
the baseline is reassigned to `value`, current becomes `value`, and both
stacks are cleared. `none` models calling with no (or an undefined)
argument. -/
def reset {T : Type} (s : UndoRedoState T) (newInitialValue : Option T) :
    UndoRedoState T :=
  let value := match newInitialValue with
    | some v => v
    | none => s.initial
  ⟨value, [], [], value⟩

/-- Derived boolean `canUndo = history.length > 0`. -/
def canUndo {T : Type} (s : UndoRedoState T) : Bool :=
  s.history.length > 0

/-- Derived boolean `canRedo = future.length > 0`. -/
def canRedo {T : Type} (s : UndoRedoState T) : Bool :=
  s.future.length > 0

/-- One call against the hook's API. -/
inductive Op (T : Type) where
  | set : T ⊕ (T → T) → Op T
  | undo : Op T
  | redo : Op T
  | reset : Option T → Op T

/-- Apply one operation. -/
def applyOp {T : Type} (s : UndoRedoState T) : Op T → UndoRedoState T
  | Op.set v => set s v
  | Op.undo => undo s
  | Op.redo => redo s
  | Op.reset a => reset s a

/-- Run a sequence of operations, first operation first. -/
def run {T : Type} (ops : List (Op T)) (s : UndoRedoState T) : UndoRedoState T :=
  ops.foldl applyOp s

theorem run_nil {T : Type} (s : UndoRedoState T) : run [] s = s := rfl

theorem run_cons {T : Type} (o : Op T) (ops : List (Op T)) (s : UndoRedoState T) :
    run (o :: ops) s = run ops (applyOp s o) := rfl

theorem undo_nil {T : Type} (c : T) (f : List T) (i : T) :
    undo ⟨c, [], f, i⟩ = ⟨c, [], f, i⟩ := rfl

theorem undo_concat {T : Type} (c : T) (h : List T) (p : T) (f : List T) (i : T) :
    undo ⟨c, h ++ [p], f, i⟩ = ⟨p, h, c :: f, i⟩ := by
  simp [undo, List.getLast?_concat, List.dropLast_concat]

theorem redo_nil {T : Type} (c : T) (h : List T) (i : T) :
    redo ⟨c, h, [], i⟩ = ⟨c, h, [], i⟩ := rfl

theorem redo_cons {T : Type} (c : T) (h : List T) (n : T) (rest : List T) (i : T) :
    redo ⟨c, h, n :: rest, i⟩ = ⟨n, h ++ [c], rest, i⟩ := rfl

/-- C5: `set` pushes the pre-update current onto the end of `history`,
clears `future` entirely, installs the new value (literal, or the updater
applied to the current value) as `current`, and therefore leaves
`canRedo` false — in particular after any `undo`. -/
theorem set_pushes_history_clears_future {T : Type} (s : UndoRedoState T)
    (v : T ⊕ (T → T)) :
    (set s v).history = s.history ++ [s.current] ∧
    (set s v).future = [] ∧
    (set s v).current = (match v with | Sum.inl x => x | Sum.inr f => f s.current) ∧
    canRedo (set s v) = false := by
  refine ⟨rfl, rfl, ?_, rfl⟩
  cases v <;> rfl

/-- C6: from any state with non-empty history, `undo` moves the outgoing
current to the front of `future`, and an immediately following `redo`
restores the whole state — in particular `current` is back to its value at
the time `undo` was called, and the element moved to `future` is back at
the end of `history`. -/
theorem undo_redo_round_trip {T : Type} (s : UndoRedoState T)
    (hne : s.history ≠ []) :
    (undo s).future = s.current :: s.future ∧
    redo (undo s) = s ∧
    (redo (undo s)).current = s.current ∧
    (redo (undo s)).history = (undo s).history ++ [(undo s).current] := by
  obtain ⟨c, h, f, i⟩ := s
  rcases List.eq_nil_or_concat h with rfl | ⟨h2, p, rfl⟩
  · simp at hne
  · simp only [List.concat_eq_append]
    rw [undo_concat]
    exact ⟨rfl, rfl, rfl, rfl⟩

/-- The spec's concrete scenario `init 0; set 1; set 2` followed by `undo`,
used as the concrete instance for the round-trip theorem. -/
def demoUndoState : UndoRedoState Nat :=
  run [Op.set (Sum.inl 1), Op.set (Sum.inl 2)] (init 0)

theorem undo_redo_round_trip_witness :
    demoUndoState.history ≠ [] ∧
    ((undo demoUndoState).future = demoUndoState.current :: demoUndoState.future ∧
     redo (undo demoUndoState) = demoUndoState ∧
     (redo (undo demoUndoState)).current = demoUndoState.current ∧
     (redo (undo demoUndoState)).history =
       (undo demoUndoState).history ++ [(undo demoUndoState).current]) :=
  ⟨by decide, undo_redo_round_trip demoUndoState (by decide)⟩

/-- C7: `reset` installs the given value (else the stored baseline) as
`current`, always clears both stacks (so `canUndo` and `canRedo` are
false), and when a value is given it becomes the new stored baseline, so a
subsequent parameterless `reset` reuses it. -/
theorem reset_semantics {T : Type} (s : UndoRedoState T) (v : T)
    (arg : Option T) :
    (reset s (some v)).current = v ∧
    (reset s none).current = s.initial ∧
    (reset s arg).history = [] ∧
    (reset s arg).future = [] ∧
    canUndo (reset s arg) = false ∧
    canRedo (reset s arg) = false ∧
    (reset s (some v)).initial = v ∧
    (reset (reset s (some v)) none).current = v :=
  ⟨rfl, rfl, rfl, rfl, rfl, rfl, rfl, rfl⟩

theorem run_replicate_set_history_length {T : Type} (v : T) (k : Nat)
    (s : UndoRedoState T) :
    (run (List.replicate k (Op.set (Sum.inl v))) s).history.length =
      s.history.length + k := by
  induction k generalizing s with
  | zero => simp [run]
  | succ n ih =>
      rw [List.replicate_succ, run_cons, ih]
      simp [applyOp, set]
      omega

/-- C2 counterexample: no fixed bound N caps the history stack over all
operation sequences — the source `set` appends to `history` without any
cap, so N + 1 consecutive sets give a history of length N + 1. -/
theorem history_unbounded_counterexample :
    ¬ ∃ N : Nat, ∀ ops : List (Op Nat),
        (run ops (init 0)).history.length ≤ N := by
  rintro ⟨N, hN⟩
  have h := hN (List.replicate (N + 1) (Op.set (Sum.inl 0)))
  rw [run_replicate_set_history_length] at h
  simp [init] at h

theorem applyOp_stack_growth {T : Type} (s : UndoRedoState T) (o : Op T) :
    (applyOp s o).history.length ≤ s.history.length + 1 ∧
    (applyOp s o).future.length ≤ s.future.length + 1 := by
  obtain ⟨c, h, f, i⟩ := s
  cases o with
  | set v => simp [applyOp, set]
  | undo =>
      rcases List.eq_nil_or_concat h with rfl | ⟨h2, p, rfl⟩
      · simp [applyOp, undo_nil]
      · simp only [List.concat_eq_append, applyOp, undo_concat]
        simp [List.length_append]
        omega
  | redo =>
      cases f with
      | nil => simp [applyOp, redo_nil]
      | cons n rest =>
          simp only [applyOp, redo_cons]
          simp [List.length_append]
          omega
  | reset a => cases a <;> simp [applyOp, reset]

theorem run_stack_length_le {T : Type} (ops : List (Op T))
    (s : UndoRedoState T) :
    (run ops s).history.length ≤ s.history.length + ops.length ∧
    (run ops s).future.length ≤ s.future.length + ops.length := by
  induction ops generalizing s with
  | nil => simp [run]
  | cons o rest ih =>
      rw [run_cons]
      obtain ⟨ih1, ih2⟩ := ih (applyOp s o)
      obtain ⟨g1, g2⟩ := applyOp_stack_growth s o
      constructor <;> simp only [List.length_cons] <;> omega

/-- C2 (amended): the stacks are not bounded by any fixed N; what holds is
the per-sequence bound — after any sequence of operations from the initial
state, `history` and `future` each have length at most the number of
operations performed. -/
theorem history_future_bounded_by_op_count {T : Type} (v0 : T)
    (ops : List (Op T)) :
    (run ops (init v0)).history.length ≤ ops.length ∧
    (run ops (init v0)).future.length ≤ ops.length := by
  have h := run_stack_length_le ops (init v0)
  simpa [init] using h

/-- The edit timeline of a store state: past values, then the current
value, then the undone values — `history ++ current :: future`. -/
def timeline {T : Type} (s : UndoRedoState T) : List T :=
  s.history ++ s.current :: s.future

theorem timeline_undo {T : Type} (s : UndoRedoState T) :
    timeline (undo s) = timeline s := by
  obtain ⟨c, h, f, i⟩ := s
  rcases List.eq_nil_or_concat h with rfl | ⟨h2, p, rfl⟩
  · rfl
  · simp only [List.concat_eq_append]
    rw [undo_concat]
    simp [timeline]

theorem timeline_redo {T : Type} (s : UndoRedoState T) :
    timeline (redo s) = timeline s := by
  obtain ⟨c, h, f, i⟩ := s
  cases f with
  | nil => rfl
  | cons n rest =>
      rw [redo_cons]
      simp [timeline]

/-- The value recorded by one operation: the literal passed to `set`, or
the explicit value passed to `reset`. -/
def opWrite {T : Type} : Op T → Option T
  | Op.set (Sum.inl v) => some v
  | Op.reset (some v) => some v
  | _ => none

/-- All values written by a sequence of operations, in order. -/
def writes {T : Type} (ops : List (Op T)) : List T :=
  ops.filterMap opWrite

/-- True when every `set` in the sequence passes a literal value rather
than an updater function. -/
def onlyLiteralSets {T : Type} (ops : List (Op T)) : Bool :=
  ops.all fun o => match o with
    | Op.set (Sum.inr _) => false
    | _ => true

theorem nodup_append_middle {α : Type} (a b c : List α)
    (h : (a ++ (b ++ c)).Nodup) : (a ++ c).Nodup :=
  ((List.sublist_append_right b c).append_left a).nodup h

theorem run_timeline_nodup {T : Type} (ops : List (Op T)) (s : UndoRedoState T)
    (hlit : onlyLiteralSets ops = true)
    (hnd : (timeline s ++ writes ops).Nodup)
    (hinit : s.initial ∉ writes ops) :
    (timeline (run ops s)).Nodup := by
  induction ops generalizing s with
  | nil => simpa [writes] using hnd
  | cons o rest ih =>
      rw [run_cons]
      have hlit2 : onlyLiteralSets rest = true := by
        simp only [onlyLiteralSets, List.all_cons, Bool.and_eq_true] at hlit
        exact hlit.2
      cases o with
      | set v =>
          cases v with
          | inl x =>
              apply ih (applyOp s (Op.set (Sum.inl x))) hlit2
              · obtain ⟨c, h, f, i⟩ := s
                have hnd2 : ((h ++ [c]) ++ (f ++ x :: writes rest)).Nodup := by
                  simpa [timeline, writes, opWrite, List.filterMap_cons] using hnd
                have := nodup_append_middle (h ++ [c]) f (x :: writes rest) hnd2
                simpa [applyOp, set, timeline, writes] using this
              · have : s.initial ∉ x :: writes rest := by
                  simpa [writes, opWrite, List.filterMap_cons] using hinit
                simp only [applyOp, set]
                exact fun hmem => this (List.mem_cons_of_mem _ hmem)
          | inr f =>
              exfalso
              simp [onlyLiteralSets, List.all_cons] at hlit
      | undo =>
          apply ih (applyOp s Op.undo) hlit2
          · show (timeline (undo s) ++ writes rest).Nodup
            rw [timeline_undo]
            simpa [writes, opWrite, List.filterMap_cons] using hnd
          · have hini : (undo s).initial = s.initial := by
              obtain ⟨c, h, f, i⟩ := s
              rcases List.eq_nil_or_concat h with rfl | ⟨h2, p, rfl⟩
              · rfl
              · simp only [List.concat_eq_append]
                rw [undo_concat]
            rw [show applyOp s Op.undo = undo s from rfl, hini]
            simpa [writes, opWrite, List.filterMap_cons] using hinit
      | redo =>
          apply ih (applyOp s Op.redo) hlit2
          · show (timeline (redo s) ++ writes rest).Nodup
            rw [timeline_redo]
            simpa [writes, opWrite, List.filterMap_cons] using hnd
          · have hini : (redo s).initial = s.initial := by
              obtain ⟨c, h, f, i⟩ := s
              cases f with
              | nil => rfl
              | cons n rest2 => rw [redo_cons]
            rw [show applyOp s Op.redo = redo s from rfl, hini]
            simpa [writes, opWrite, List.filterMap_cons] using hinit
      | reset a =>
          cases a with
          | none =>
              apply ih (applyOp s (Op.reset none)) hlit2
              · have hW : (writes rest).Nodup := by
                  have : List.Sublist (writes rest) (timeline s ++ writes rest) :=
                    List.sublist_append_right _ _
                  have hnd2 : (timeline s ++ writes rest).Nodup := by
                    simpa [writes, opWrite, List.filterMap_cons] using hnd
                  exact this.nodup hnd2
                have hini2 : s.initial ∉ writes rest := by
                  simpa [writes, opWrite, List.filterMap_cons] using hinit
                simpa [applyOp, reset, timeline, List.nodup_cons] using ⟨hini2, hW⟩
              · have : s.initial ∉ writes rest := by
                  simpa [writes, opWrite, List.filterMap_cons] using hinit
                simpa [applyOp, reset] using this
          | some v =>
              apply ih (applyOp s (Op.reset (some v))) hlit2
              · have hvW : (v :: writes rest).Nodup := by
                  have : List.Sublist (v :: writes rest) (timeline s ++ v :: writes rest) :=
                    List.sublist_append_right _ _
                  have hnd2 : (timeline s ++ v :: writes rest).Nodup := by
                    simpa [writes, opWrite, List.filterMap_cons] using hnd
                  exact this.nodup hnd2
                have := List.nodup_cons.mp hvW
                simpa [applyOp, reset, timeline, List.nodup_cons] using this
              · have hvW : (v :: writes rest).Nodup := by
                  have : List.Sublist (v :: writes rest) (timeline s ++ v :: writes rest) :=
                    List.sublist_append_right _ _
                  have hnd2 : (timeline s ++ v :: writes rest).Nodup := by
                    simpa [writes, opWrite, List.filterMap_cons] using hnd
                  exact this.nodup hnd2
                have := (List.nodup_cons.mp hvW).1
                simpa [applyOp, reset] using this

/-- Reachable state in which a value sits in both `history` and `future`
and the current value also sits in `future`: built by
`init 0; set 1; set 0; set 1; undo; undo`. -/
def overlapDemo : UndoRedoState Nat :=
  run [Op.set (Sum.inl 1), Op.set (Sum.inl 0), Op.set (Sum.inl 1),
       Op.undo, Op.undo] (init 0)

/-- C3 counterexample: in the reachable state `overlapDemo`
(history = [0], future = [0, 1], current = 1) the value 0 appears in both
`history` and `future`, and the current value 1 also appears in `future`,
so the stacks do overlap and a value can appear in more than one of
history, future and current at once. -/
theorem history_future_overlap_found :
    (0 ∈ overlapDemo.history ∧ 0 ∈ overlapDemo.future) ∧
    overlapDemo.current ∈ overlapDemo.future := by decide

/-- C3 (amended): the no-overlap invariant holds when the written values
are pairwise distinct — if every `set` passes a literal and the initial
value together with all written values are pairwise distinct, then in the
reached state `history` and `future` are disjoint and the current value
lies in neither stack. -/
theorem no_overlap_of_distinct_writes {T : Type} [DecidableEq T] (v0 : T)
    (ops : List (Op T))
    (hlit : onlyLiteralSets ops = true)
    (hnd : (v0 :: writes ops).Nodup) :
    (∀ x ∈ (run ops (init v0)).history, x ∉ (run ops (init v0)).future) ∧
    (run ops (init v0)).current ∉ (run ops (init v0)).history ∧
    (run ops (init v0)).current ∉ (run ops (init v0)).future := by
  have hmain : (timeline (run ops (init v0))).Nodup := by
    apply run_timeline_nodup ops (init v0) hlit
    · simpa [timeline, init] using hnd
    · exact (List.nodup_cons.mp hnd).1
  rw [timeline] at hmain
  obtain ⟨h1, h2, hdisj⟩ := List.nodup_append.mp hmain
  refine ⟨?_, ?_, ?_⟩
  · intro x hx hxf
    exact hdisj hx (List.mem_cons_of_mem _ hxf)
  · intro hc
    exact hdisj hc (List.mem_cons_self _ _)
  · exact (List.nodup_cons.mp h2).1

theorem no_overlap_of_distinct_writes_witness :
    (onlyLiteralSets [Op.set (Sum.inl 1), Op.set (Sum.inl 2), Op.undo] = true) ∧
    (((0 : Nat) :: writes [Op.set (Sum.inl 1), Op.set (Sum.inl 2), Op.undo]).Nodup) ∧
    ((∀ x ∈ (run [Op.set (Sum.inl 1), Op.set (Sum.inl 2), Op.undo] (init (0 : Nat))).history,
        x ∉ (run [Op.set (Sum.inl 1), Op.set (Sum.inl 2), Op.undo] (init 0)).future) ∧
     (run [Op.set (Sum.inl 1), Op.set (Sum.inl 2), Op.undo] (init (0 : Nat))).current ∉
        (run [Op.set (Sum.inl 1), Op.set (Sum.inl 2), Op.undo] (init 0)).history ∧
     (run [Op.set (Sum.inl 1), Op.set (Sum.inl 2), Op.undo] (init (0 : Nat))).current ∉
        (run [Op.set (Sum.inl 1), Op.set (Sum.inl 2), Op.undo] (init 0)).future) :=
  ⟨by decide, by decide,
   no_overlap_of_distinct_writes 0 [Op.set (Sum.inl 1), Op.set (Sum.inl 2), Op.undo]
     (by decide) (by decide)⟩

/-- For a value type that admits `undefined` — modelled as `Option U`,
with `none` playing `undefined` — the call `reset(newInitialValue)` cannot
distinguish an explicitly passed `undefined` from a missing argument: the
argument space is `Option U` itself, and the source guard
`newInitialValue !== undefined` is `a.isSome`. Faithful to the source
`reset` at that value type. -/
def resetJS {U : Type} (s : UndoRedoState (Option U)) (a : Option U) :
    UndoRedoState (Option U) :=
  let value := if a.isSome then a else s.initial
  ⟨value, [], [], value⟩

/-- Hook operations at a value type `Option U` that admits `undefined`,
with `reset` taking the collapsed JS argument. -/
inductive OpJS (U : Type) where
  | set : Option U ⊕ (Option U → Option U) → OpJS U
  | undo : OpJS U
  | redo : OpJS U
  | reset : Option U → OpJS U

/-- Apply one operation at an `undefined`-admitting value type. -/
def applyOpJS {U : Type} (s : UndoRedoState (Option U)) :
    OpJS U → UndoRedoState (Option U)
  | OpJS.set v => set s v
  | OpJS.undo => undo s
  | OpJS.redo => redo s
  | OpJS.reset a => resetJS s a

/-- Run a sequence of operations at an `undefined`-admitting value type. -/
def runJS {U : Type} (ops : List (OpJS U)) (s : UndoRedoState (Option U)) :
    UndoRedoState (Option U) :=
  ops.foldl applyOpJS s

theorem undo_initial {T : Type} (s : UndoRedoState T) :
    (undo s).initial = s.initial := by
  obtain ⟨c, h, f, i⟩ := s
  rcases List.eq_nil_or_concat h with rfl | ⟨h2, p, rfl⟩
  · rfl
  · simp only [List.concat_eq_append]
    rw [undo_concat]

theorem redo_initial {T : Type} (s : UndoRedoState T) :
    (redo s).initial = s.initial := by
  obtain ⟨c, h, f, i⟩ := s
  cases f with
  | nil => rfl
  | cons n rest => rw [redo_cons]

theorem runJS_initial_isSome {U : Type} (ops : List (OpJS U))
    (s : UndoRedoState (Option U)) (h : s.initial.isSome = true) :
    (runJS ops s).initial.isSome = true := by
  induction ops generalizing s with
  | nil => exact h
  | cons o rest ih =>
      show (runJS rest (applyOpJS s o)).initial.isSome = true
      apply ih
      cases o with
      | set v => exact h
      | undo => rw [show applyOpJS s OpJS.undo = undo s from rfl, undo_initial]; exact h
      | redo => rw [show applyOpJS s OpJS.redo = redo s from rfl, redo_initial]; exact h
      | reset a =>
          cases a with
          | none => simpa [applyOpJS, resetJS] using h
          | some u => simp [applyOpJS, resetJS]

/-- C10 counterexample: a store constructed with `undefined`
(`init none`), after `set (some 1)`, has a defined current value, yet a
parameterless (or explicit-`undefined`) `reset` installs `undefined` as
the current value, because the stored baseline is `undefined`. -/
theorem resetJS_installs_undefined :
    (set (init (none : Option Nat)) (Sum.inl (some 1))).current = some 1 ∧
    (resetJS (set (init (none : Option Nat)) (Sum.inl (some 1))) none).current
      = none := by decide

/-- C10 (amended): `reset` with an explicitly passed `undefined` behaves
exactly like a parameterless reset — current becomes the stored baseline
and the baseline is unchanged — and `reset` installs `undefined` as
current or baseline only by copying an `undefined` baseline; whenever the
stored baseline is defined the result of any `reset` has a defined
current and baseline, and the baseline stays defined under every
operation sequence from a construction with a defined initial value. -/
theorem resetJS_undefined_is_parameterless {U : Type}
    (s : UndoRedoState (Option U)) (a : Option U) (u0 : U)
    (ops : List (OpJS U)) (hs : s.initial.isSome = true) :
    resetJS s none = ⟨s.initial, [], [], s.initial⟩ ∧
    (resetJS s a).current.isSome = true ∧
    (resetJS s a).initial.isSome = true ∧
    (runJS ops (init (some u0))).initial.isSome = true := by
  refine ⟨rfl, ?_, ?_, runJS_initial_isSome ops _ rfl⟩
  · cases a with
    | none => simpa [resetJS] using hs
    | some u => simp [resetJS]
  · cases a with
    | none => simpa [resetJS] using hs
    | some u => simp [resetJS]

theorem resetJS_undefined_is_parameterless_witness :
    ((⟨some 5, [], [], some 0⟩ : UndoRedoState (Option Nat)).initial.isSome = true) ∧
    (resetJS (⟨some 5, [], [], some 0⟩ : UndoRedoState (Option Nat)) none =
        ⟨(⟨some 5, [], [], some 0⟩ : UndoRedoState (Option Nat)).initial, [], [],
         (⟨some 5, [], [], some 0⟩ : UndoRedoState (Option Nat)).initial⟩ ∧
     (resetJS (⟨some 5, [], [], some 0⟩ : UndoRedoState (Option Nat)) none).current.isSome = true ∧
     (resetJS (⟨some 5, [], [], some 0⟩ : UndoRedoState (Option Nat)) none).initial.isSome = true ∧
     (runJS [OpJS.set (Sum.inl none)] (init (some 0))).initial.isSome = true) :=
  ⟨by decide,
   resetJS_undefined_is_parameterless (⟨some 5, [], [], some 0⟩ : UndoRedoState (Option Nat))
     none 0 [OpJS.set (Sum.inl none)] (by decide)⟩

end UndoRedo

namespace Debounce

/-- State of one debounce instance: `timeout` is the single pending timer
(`timeoutRef`), recorded as its fire time (schedule time + delay) and the
captured arguments; `fired` is the ordered record of invocations of the
wrapped callback (equivalently, of updates to the debounced value). -/
structure DState (α : Type) where
  timeout : Option (Nat × α)
  fired : List (Nat × α)
deriving Repr, DecidableEq

/-- Fresh instance: no pending timer, nothing fired. -/
def initState {α : Type} : DState α := ⟨none, []⟩

/-- Let the scheduler advance to time `t`: a pending timer whose fire time
has arrived fires (the callback runs with the captured arguments) and is
cleared; an undue timer is untouched. -/
def expire {α : Type} (t : Nat) (s : DState α) : DState α :=
  match s.timeout with
  | some (ft, a) => if ft ≤ t then ⟨none, s.fired ++ [(ft, a)]⟩ else s
  | none => s

/-- `debouncedFn(...args)` called at time `t`: any timer already due has
fired; `clearTimeout` drops the pending timer and `setTimeout` schedules a
new one for `t + delay` with the new arguments. This is also the effect
body of `useDebounceValue` (schedule `setDebounced(value)` after `delay`,
cleanup clears the previous timer). -/
def call {α : Type} (delay t : Nat) (a : α) (s : DState α) : DState α :=
  let s1 := expire t s
  ⟨some (t + delay, a), s1.fired⟩

/-- Process a time-ordered list of calls. -/
def runCalls {α : Type} (delay : Nat) (evs : List (Nat × α)) (s : DState α) :
    DState α :=
  evs.foldl (fun st e => call delay e.1 e.2 st) s

/-- The instance observed at time `tEnd` after the listed calls. -/
def observe {α : Type} (delay : Nat) (evs : List (Nat × α)) (tEnd : Nat) :
    DState α :=
  expire tEnd (runCalls delay evs initState)

/-- Last element of `e :: l`. -/
def lastD {β : Type} (e : β) : List β → β
  | [] => e
  | x :: xs => lastD x xs

theorem runCalls_cons {α : Type} (delay : Nat) (e : Nat × α)
    (evs : List (Nat × α)) (s : DState α) :
    runCalls delay (e :: evs) s = runCalls delay evs (call delay e.1 e.2 s) := rfl

theorem runCalls_chain {α : Type} (delay : Nat) (rest : List (Nat × α)) :
    ∀ (t : Nat) (v : α),
    List.Chain' (fun p q => p.1 < q.1 ∧ q.1 < p.1 + delay) ((t, v) :: rest) →
    runCalls delay rest ⟨some (t + delay, v), []⟩ =
      ⟨some ((lastD (t, v) rest).1 + delay, (lastD (t, v) rest).2), []⟩ := by
  induction rest with
  | nil => intro t v _; rfl
  | cons e rest2 ih =>
      intro t v hch
      obtain ⟨t2, v2⟩ := e
      rw [List.chain'_cons] at hch
      have hc : call delay t2 v2 ⟨some (t + delay, v), []⟩ =
          ⟨some (t2 + delay, v2), []⟩ := by
        simp [call, expire, Nat.not_le.mpr hch.1.2]
      rw [runCalls_cons]
      simp only
      rw [hc]
      exact ih t2 v2 hch.2

/-- C4: if every gap between consecutive calls is under `delay`, only the
last call takes effect — nothing fires before the last call's fire time
(the pre-trigger value stays visible), and once `delay` has elapsed after
the last call the callback has fired exactly once, with the last call's
arguments, at the last call's time plus `delay`; no intermediate call ever
causes an invocation. -/
theorem debounce_last_call_wins {α : Type} (delay : Nat) (e : Nat × α)
    (rest : List (Nat × α))
    (hch : List.Chain' (fun p q => p.1 < q.1 ∧ q.1 < p.1 + delay) (e :: rest)) :
    (∀ tEnd, (lastD e rest).1 + delay ≤ tEnd →
       (observe delay (e :: rest) tEnd).fired =
         [((lastD e rest).1 + delay, (lastD e rest).2)]) ∧
    (∀ t2, t2 < (lastD e rest).1 + delay →
       (observe delay (e :: rest) t2).fired = []) := by
  obtain ⟨t, v⟩ := e
  have hrun : runCalls delay ((t, v) :: rest) initState =
      ⟨some ((lastD (t, v) rest).1 + delay, (lastD (t, v) rest).2), []⟩ := by
    rw [runCalls_cons]
    simp only
    have hfirst : call delay t v initState = ⟨some (t + delay, v), []⟩ := rfl
    rw [hfirst]
    exact runCalls_chain delay rest t v hch
  constructor
  · intro tEnd h
    simp [observe, hrun, expire, h]
  · intro t2 h
    simp [observe, hrun, expire, Nat.not_le.mpr h]

theorem debounce_last_call_wins_witness :
    (List.Chain' (fun p q => p.1 < q.1 ∧ q.1 < p.1 + 300)
       [((0 : Nat), (10 : Nat)), (50, 20)]) ∧
    ((∀ tEnd, (lastD ((0 : Nat), (10 : Nat)) [(50, 20)]).1 + 300 ≤ tEnd →
        (observe 300 [((0 : Nat), (10 : Nat)), (50, 20)] tEnd).fired =
          [((lastD ((0 : Nat), (10 : Nat)) [(50, 20)]).1 + 300,
            (lastD ((0 : Nat), (10 : Nat)) [(50, 20)]).2)]) ∧
     (∀ t2, t2 < (lastD ((0 : Nat), (10 : Nat)) [(50, 20)]).1 + 300 →
        (observe 300 [((0 : Nat), (10 : Nat)), (50, 20)] t2).fired = [])) :=
  ⟨by rw [List.chain'_cons]
      exact ⟨⟨by norm_num, by norm_num⟩, List.chain'_singleton _⟩,
   debounce_last_call_wins 300 (0, 10) [(50, 20)]
     (by rw [List.chain'_cons]
         exact ⟨⟨by norm_num, by norm_num⟩, List.chain'_singleton _⟩)⟩

end Debounce

namespace UseAsync

/-- A JavaScript `Error` object, as far as `useAsync` inspects it:
its `name` and `message`. -/
structure JSError where
  name : String
  message : String
deriving Repr, DecidableEq

/-- A value thrown by the wrapped operation: either an `Error` instance,
or any other value together with its `String(error)` form. -/
inductive Thrown where
  | errorVal : JSError → Thrown
  | otherVal : String → Thrown
deriving Repr, DecidableEq

/-- The hook's externally visible state record. -/
structure AsyncState (T : Type) where
  data : Option T
  loading : Bool
  error : Option JSError
deriving Repr, DecidableEq

/-- Initial state: `data: null, loading: false, error: null`. -/
def initialState {T : Type} : AsyncState T := ⟨none, false, none⟩

/-- The source guard `error instanceof Error && error.name === 'AbortError'`. -/
def isAbortError : Thrown → Bool
  | Thrown.errorVal e => e.name = "AbortError"
  | Thrown.otherVal _ => false

/-- The source normalization
`error instanceof Error ? error : new Error(String(error))`; a fresh
`Error` carries name `"Error"` and the string form as its message. -/
def normalizeError : Thrown → JSError
  | Thrown.errorVal e => e
  | Thrown.otherVal s => ⟨"Error", s⟩

/-- What one `execute` call hands back to its direct caller. -/
inductive ExecReturn (T : Type) where
  | value : T → ExecReturn T
  | undef : ExecReturn T
  | raise : Thrown → ExecReturn T
deriving Repr, DecidableEq

/-- How the wrapped operation settles. -/
inductive Settlement (T : Type) where
  | resolved : T → Settlement T
  | rejected : Thrown → Settlement T
deriving Repr, DecidableEq

/-- Everything observable from the settlement half of one `execute` call. -/
structure SettleResult (T : Type) where
  state : AsyncState T
  onSuccessArg : Option T
  onErrorArg : Option JSError
  ret : ExecReturn T
deriving Repr, DecidableEq

/-- The settlement half of `execute` from the source, lines 67-102.
On resolve: state and success callback only if `mountedRef.current`, and
the result is returned either way. On reject: an `AbortError` returns
`undefined` with no state change and no callback; otherwise, if mounted,
the normalized error is stored (`data: null, loading: false`) and passed
to the error callback; the original thrown value is re-raised either
way. -/
def settle {T : Type} (mounted : Bool) (s : AsyncState T) :
    Settlement T → SettleResult T
  | Settlement.resolved v =>
      if mounted then ⟨⟨some v, false, none⟩, some v, none, ExecReturn.value v⟩
      else ⟨s, none, none, ExecReturn.value v⟩
  | Settlement.rejected e =>
      if isAbortError e then ⟨s, none, none, ExecReturn.undef⟩
      else if mounted then
        ⟨⟨none, false, some (normalizeError e)⟩, none, some (normalizeError e),
         ExecReturn.raise e⟩
      else ⟨s, none, none, ExecReturn.raise e⟩

/-- C8: a non-cancellation rejection while mounted stores the normalized
error — a non-Error thrown value is wrapped into an Error whose message is
its string form — with `data = null` and `loading = false`, passes that
same error object to the failure callback, and re-raises the thrown value
to the direct caller of `execute`. -/
theorem failure_normalized_and_reraised {T : Type} (s : AsyncState T)
    (e : Thrown) (hab : isAbortError e = false) :
    settle true s (Settlement.rejected e) =
      ⟨⟨none, false, some (normalizeError e)⟩, none, some (normalizeError e),
       ExecReturn.raise e⟩ ∧
    (∀ str, normalizeError (Thrown.otherVal str) = ⟨"Error", str⟩) := by
  refine ⟨?_, fun str => rfl⟩
  simp [settle, hab]

theorem failure_normalized_and_reraised_witness :
    (isAbortError (Thrown.otherVal "String error") = false) ∧
    (settle true (initialState (T := Nat))
        (Settlement.rejected (Thrown.otherVal "String error")) =
      ⟨⟨none, false, some (normalizeError (Thrown.otherVal "String error"))⟩,
       none, some (normalizeError (Thrown.otherVal "String error")),
       ExecReturn.raise (Thrown.otherVal "String error")⟩ ∧
     (∀ str, normalizeError (Thrown.otherVal str) = ⟨"Error", str⟩)) :=
  ⟨by decide,
   failure_normalized_and_reraised (initialState (T := Nat))
     (Thrown.otherVal "String error") (by decide)⟩

/-- C9: a rejection carrying an Error named `AbortError` is fully silent —
`execute` leaves every state field untouched, invokes no callback, raises
nothing, and returns `undefined` — whereas any other rejection is re-raised
to the caller; mounted or not. -/
theorem abort_rejection_silent {T : Type} (mounted : Bool) (s : AsyncState T)
    (e : Thrown) (hab : isAbortError e = true) :
    settle mounted s (Settlement.rejected e) =
      ⟨s, none, none, ExecReturn.undef⟩ ∧
    (∀ e2 : Thrown, isAbortError e2 = false →
       (settle mounted s (Settlement.rejected e2)).ret = ExecReturn.raise e2) := by
  constructor
  · simp [settle, hab]
  · intro e2 h2
    cases mounted <;> simp [settle, h2]

theorem abort_rejection_silent_witness :
    (isAbortError (Thrown.errorVal ⟨"AbortError", "signal is aborted"⟩) = true) ∧
    (settle true (⟨some 3, true, none⟩ : AsyncState Nat)
        (Settlement.rejected (Thrown.errorVal ⟨"AbortError", "signal is aborted"⟩)) =
      ⟨(⟨some 3, true, none⟩ : AsyncState Nat), none, none, ExecReturn.undef⟩ ∧
     (∀ e2 : Thrown, isAbortError e2 = false →
        (settle true (⟨some 3, true, none⟩ : AsyncState Nat)
            (Settlement.rejected e2)).ret = ExecReturn.raise e2)) :=
  ⟨by decide,
   abort_rejection_silent true (⟨some 3, true, none⟩ : AsyncState Nat)
     (Thrown.errorVal ⟨"AbortError", "signal is aborted"⟩) (by decide)⟩

end UseAsync

namespace UseAsync

/-- One `useAsync` instance between scheduler turns: `mounted` is
`mountedRef.current`; `controller` is the id of the `AbortController`
currently held by `abortControllerRef`; `abortedIds` records every
controller on which `abort()` has been called; `st` is the visible state. -/
structure AsyncMachine (T : Type) where
  mounted : Bool
  controller : Option Nat
  abortedIds : List Nat
  st : AsyncState T
deriving Repr, DecidableEq

/-- Interleaved events on one instance: `start id` is the synchronous head
of an `execute` call (its fresh `AbortController` is named `id`);
`settleOp id out` is the wrapped operation of call `id` settling, with the
continuation of `execute` running. Distinct calls use distinct ids. -/
inductive AsyncEv (T : Type) where
  | start : Nat → AsyncEv T
  | settleOp : Nat → Settlement T → AsyncEv T

/-- One scheduler turn, from the source `execute` (lines 51-105).
`start id`: the previous controller (if any) gets `abort()` called on it,
a fresh controller `id` is installed, and state becomes
`loading: true, error: null` with `data` untouched. `settleOp id out`:
the source passes the abort signal to nothing — `asyncFunction(...args)`
receives only the caller's arguments — and the settlement continuation
guards its `setState` solely on `mountedRef.current`, so the stored
`abortedIds` and `controller` play no part in this branch; the visible
state is updated by `settle` regardless of which call is current. -/
def applyAsyncEv {T : Type} (m : AsyncMachine T) : AsyncEv T → AsyncMachine T
  | AsyncEv.start id =>
      { m with
          controller := some id,
          abortedIds := match m.controller with
            | some c => c :: m.abortedIds
            | none => m.abortedIds,
          st := { m.st with loading := true, error := none } }
  | AsyncEv.settleOp _ out =>
      { m with st := (settle m.mounted m.st out).state }

/-- Run a list of interleaved events, first event first. -/
def runAsync {T : Type} (evs : List (AsyncEv T)) (m : AsyncMachine T) :
    AsyncMachine T :=
  evs.foldl applyAsyncEv m

/-- A freshly mounted instance. -/
def initMachine {T : Type} : AsyncMachine T :=
  ⟨true, none, [], initialState⟩

/-- C1 (code bug): call 1 starts, call 2 starts before call 1 settles
(so controller 1 is aborted), call 2 resolves with 7, and call 1 resolves
later with 42. The final `data` is 42 — the first call's result — because
the resolution path checks only `mountedRef.current` and the aborted
controller's signal is never given to the operation nor consulted, so
"last write wins" fails: the superseded call can still overwrite state. -/
theorem stale_result_overwrites :
    (runAsync [AsyncEv.start 1, AsyncEv.start 2,
               AsyncEv.settleOp 2 (Settlement.resolved 7),
               AsyncEv.settleOp 1 (Settlement.resolved 42)]
       (initMachine (T := Nat))).st.data = some 42 ∧
    (runAsync [AsyncEv.start 1, AsyncEv.start 2,
               AsyncEv.settleOp 2 (Settlement.resolved 7),
               AsyncEv.settleOp 1 (Settlement.resolved 42)]
       (initMachine (T := Nat))).abortedIds = [1] := by decide

end UseAsync
